import Mathlib

/-!
Shallow embedding of the Texas Hold'em hand-progression engine of
`src/server.js` (Node + Socket.IO poker server).

Conventions of the embedding:
* cards are the two-character strings of the source (for example "As");
* chip amounts, bets, contributions, the pot and the blinds are `Int`,
  matching the unbounded JavaScript number arithmetic actually performed
  on them (all integer-valued in the source);
* seat indices are `Nat`; the fields that the source lets become `-1` or
  `null` (`dealerIndex`, `toActSeat`, results of `nextOccupiedSeat`) are
  `Int` / `Option Int`;
* socket emissions (`broadcastState`, `errorMsg`, `yourHand`,
  `hand_result`) carry no engine state and are dropped; an intent that the
  source rejects with `socket.emit('errorMsg', ...)` before mutating is
  modelled as a `rejected` outcome, a silently ignored one as `ignored`;
* the random shuffle is modelled by handing the already-shuffled deck to
  `startHand`;
* the external `pokersolver` comparator is a parameter: `solve` maps a
  card list to the `descr` string of the solved hand, `winnersFn` maps the
  list of descriptors to the descriptors of the co-winners.
-/

abbrev Card := String

inductive Status where
  | waiting
  | inHand
  | folded
  | allin
  | out
deriving DecidableEq, Repr

/-- A seat record (`room.seats[i]` when occupied).  The connection-layer
fields `socketId`, `name` and `seatIndex` carry no engine state and are
omitted. -/
structure Seat where
  chips : Int
  cards : List Card
  status : Status
  currentBet : Int
  totalContrib : Int
deriving DecidableEq, Repr

inductive Stage where
  | lobby
  | preflop
  | flop
  | turn
  | river
  | showdown
deriving DecidableEq, Repr

/-- The room state created by `createRoom` (minus `id` and
`hostSocketId`, which only the connection layer reads). -/
structure Room where
  seats : List (Option Seat)
  dealerIndex : Int
  deck : List Card
  community : List Card
  pot : Int
  stage : Stage
  currentBet : Int
  toActSeat : Option Int
  pendingSeats : List Nat
  handCount : Nat
  smallBlind : Int
  bigBlind : Int
deriving DecidableEq, Repr

/-- A side pot: `{amount, eligible}` as produced by `computeSidePots`. -/
structure Pot where
  amount : Int
  eligible : List Nat
deriving DecidableEq, Repr

def MAX_SEATS : Nat := 9

def START_SMALL : Int := 10

def START_BIG : Int := 20

def BLIND_INCREASE_EVERY : Nat := 10

/-- `room.seats[i]` (out-of-range reads give `none`, as the source only
indexes inside the fixed 9-slot array on the paths modelled here). -/
def seatAt (seats : List (Option Seat)) (i : Nat) : Option Seat :=
  seats.getD i none

/-- The `{seat, c}` pairs of `computeSidePots`:
`room.seats.map((s,i)=> s ? {seat:i, c:s.totalContrib} : null).filter(x=>x && x.c>0)`,
written as a recursion carrying the running index. -/
def contribPairs : List (Option Seat) → Nat → List (Nat × Int)
  | [], _ => []
  | none :: t, i => contribPairs t (i + 1)
  | some s :: t, i => (i, s.totalContrib) :: contribPairs t (i + 1)

def contribsOf (seats : List (Option Seat)) : List (Nat × Int) :=
  (contribPairs seats 0).filter (fun x => 0 < x.2)

/-- `l.foldl min x = x` or it is an element of `l`: the minimum of
`Math.min(...)` is attained. -/
theorem foldl_min_attained {α : Type} [LinearOrder α] (l : List α) (x : α) :
    l.foldl min x = x ∨ l.foldl min x ∈ l := by
  induction l generalizing x with
  | nil => left; rfl
  | cons a t ih =>
    rcases ih (min x a) with h | h
    · rw [List.foldl_cons, h]
      rcases le_total x a with hxa | hxa
      · left; exact min_eq_left hxa
      · right; rw [min_eq_right hxa]; exact List.mem_cons_self a t
    · right; exact List.mem_cons_of_mem a h

theorem foldl_min_le_init {α : Type} [LinearOrder α] (l : List α) (x : α) :
    l.foldl min x ≤ x := by
  induction l generalizing x with
  | nil => exact le_refl x
  | cons a t ih =>
    rw [List.foldl_cons]
    exact le_trans (ih (min x a)) (min_le_left x a)

theorem foldl_min_le_mem {α : Type} [LinearOrder α] (l : List α) (x y : α)
    (hy : y ∈ l) : l.foldl min x ≤ y := by
  induction l generalizing x with
  | nil => cases hy
  | cons a t ih =>
    rw [List.foldl_cons]
    rcases List.mem_cons.mp hy with h | h
    · subst h
      exact le_trans (foldl_min_le_init t (min x y)) (min_le_right x y)
    · exact ih (min x a) h

theorem length_filter_lt_of_mem {α : Type} (p : α → Bool) (l : List α)
    (a : α) (ha : a ∈ l) (hpa : p a = false) :
    (l.filter p).length < l.length := by
  induction l with
  | nil => cases ha
  | cons b t ih =>
    rcases List.mem_cons.mp ha with h | h
    · subst h
      rw [List.filter_cons, hpa]
      simp only [List.length_cons]
      exact Nat.lt_succ_of_le (List.length_filter_le p t)
    · rw [List.filter_cons]
      cases hpb : p b with
      | true =>
        simp only [List.length_cons]
        exact Nat.succ_lt_succ (ih h)
      | false =>
        simp only [List.length_cons]
        exact Nat.lt_succ_of_lt (ih h)

/-- The next `contribs` list of one `while` iteration of
`computeSidePots`: `minC` subtracted from every entry, entries reaching
`0` spliced out. -/
def nextContribs (l : List (Nat × Int)) (m : Int) : List (Nat × Int) :=
  (l.map (fun x => (x.1, x.2 - m))).filter (fun x => x.2 ≠ 0)

theorem nextContribs_length_lt (c : Nat × Int) (rest : List (Nat × Int)) :
    (nextContribs (c :: rest) ((rest.map Prod.snd).foldl min c.2)).length <
      (c :: rest).length := by
  set m := (rest.map Prod.snd).foldl min c.2 with hm
  have hattain : ∃ e ∈ c :: rest, e.2 = m := by
    rcases foldl_min_attained (rest.map Prod.snd) c.2 with h | h
    · exact ⟨c, List.mem_cons_self c rest, h.symm⟩
    · rcases List.mem_map.mp h with ⟨e, he, hev⟩
      exact ⟨e, List.mem_cons_of_mem c he, hev⟩
  rcases hattain with ⟨e, he, hev⟩
  have hmem : (e.1, e.2 - m) ∈ (c :: rest).map (fun x => (x.1, x.2 - m)) :=
    List.mem_map_of_mem (fun x => (x.1, x.2 - m)) he
  have hzero : (fun x : Nat × Int => decide (x.2 ≠ 0)) (e.1, e.2 - m) = false := by
    simp [hev]
  have h1 : (nextContribs (c :: rest) m).length <
      ((c :: rest).map (fun x => (x.1, x.2 - m))).length :=
    length_filter_lt_of_mem _ _ _ hmem hzero
  simpa using h1

/-- The `while(contribs.length>0)` loop of `computeSidePots`: each
iteration takes the minimum positive remaining contribution, forms one
pot layer `minC * contribs.length` with the contributing seats eligible,
subtracts the minimum everywhere and drops exhausted entries. -/
def potLayers : List (Nat × Int) → List Pot
  | [] => []
  | c :: rest =>
    let minC := (rest.map Prod.snd).foldl min c.2
    Pot.mk (minC * ((c :: rest).length : Int)) ((c :: rest).map Prod.fst) ::
      potLayers (nextContribs (c :: rest) minC)
termination_by l => l.length
decreasing_by
  simpa using nextContribs_length_lt c rest

/-- `computeSidePots` of the source, as a function of the seat array. -/
def computeSidePots (seats : List (Option Seat)) : List Pot :=
  potLayers (contribsOf seats)

theorem sum_snd_filter_ne_zero (l : List (Nat × Int)) :
    ((l.filter (fun x => x.2 ≠ 0)).map Prod.snd).sum = (l.map Prod.snd).sum := by
  induction l with
  | nil => rfl
  | cons c t ih =>
    rw [List.filter_cons]
    by_cases h : c.2 = 0
    · rw [if_neg (by simp [h])]
      rw [ih, List.map_cons, List.sum_cons, h, zero_add]
    · rw [if_pos (by simp [h])]
      rw [List.map_cons, List.sum_cons, ih, List.map_cons, List.sum_cons]

theorem sum_snd_map_sub (l : List (Nat × Int)) (m : Int) :
    ((l.map (fun x => (x.1, x.2 - m))).map Prod.snd).sum =
      (l.map Prod.snd).sum - m * (l.length : Int) := by
  induction l with
  | nil => simp
  | cons c t ih =>
    simp only [List.map_cons, List.sum_cons, ih, List.length_cons]
    push_cast
    ring

theorem potLayers_sum_aux : ∀ (n : Nat) (l : List (Nat × Int)), l.length ≤ n →
    ((potLayers l).map Pot.amount).sum = (l.map Prod.snd).sum := by
  intro n
  induction n with
  | zero =>
    intro l hl
    have : l = [] := List.eq_nil_of_length_eq_zero (Nat.le_zero.mp hl)
    subst this
    rw [potLayers]
    rfl
  | succ n ih =>
    intro l hl
    match l with
    | [] =>
      rw [potLayers]
      rfl
    | c :: rest =>
      rw [potLayers]
      set m := (rest.map Prod.snd).foldl min c.2 with hm
      have hlt : (nextContribs (c :: rest) m).length < (c :: rest).length :=
        nextContribs_length_lt c rest
      have hle : (nextContribs (c :: rest) m).length ≤ n := by
        have := Nat.lt_of_lt_of_le hlt hl
        omega
      have hrec := ih (nextContribs (c :: rest) m) hle
      simp only [List.map_cons, List.sum_cons, hrec]
      unfold nextContribs
      rw [sum_snd_filter_ne_zero, sum_snd_map_sub]
      simp only [List.map_cons, List.sum_cons]
      ring

theorem potLayers_sum (l : List (Nat × Int)) :
    ((potLayers l).map Pot.amount).sum = (l.map Prod.snd).sum :=
  potLayers_sum_aux l.length l (le_refl _)

/-- Total of the per-seat total-hand contributions over occupied seats. -/
def contribTotal (seats : List (Option Seat)) : Int :=
  ((seats.filterMap id).map Seat.totalContrib).sum

theorem contribPairs_snd_sum (seats : List (Option Seat)) (i : Nat) :
    ((contribPairs seats i).map Prod.snd).sum = contribTotal seats := by
  induction seats generalizing i with
  | nil => rfl
  | cons s t ih =>
    cases s with
    | none =>
      rw [contribPairs]
      unfold contribTotal
      simpa [contribTotal] using ih (i + 1)
    | some p =>
      rw [contribPairs]
      unfold contribTotal
      simp only [List.map_cons, List.sum_cons, List.filterMap_cons]
      have := ih (i + 1)
      unfold contribTotal at this
      simp [this]

theorem sum_snd_filter_pos_of_nonneg (l : List (Nat × Int))
    (h : ∀ x ∈ l, 0 ≤ x.2) :
    ((l.filter (fun x => 0 < x.2)).map Prod.snd).sum = (l.map Prod.snd).sum := by
  induction l with
  | nil => rfl
  | cons c t ih =>
    have hc : 0 ≤ c.2 := h c (List.mem_cons_self c t)
    have ht : ∀ x ∈ t, 0 ≤ x.2 := fun x hx => h x (List.mem_cons_of_mem c hx)
    rw [List.filter_cons]
    by_cases hp : 0 < c.2
    · simp [hp, ih ht]
    · have hz : c.2 = 0 := le_antisymm (not_lt.mp hp) hc
      simp [hp, ih ht, hz]

theorem contribPairs_nonneg (seats : List (Option Seat)) (i : Nat)
    (h : ∀ s ∈ seats.filterMap id, 0 ≤ s.totalContrib) :
    ∀ x ∈ contribPairs seats i, 0 ≤ x.2 := by
  induction seats generalizing i with
  | nil => intro x hx; cases hx
  | cons s t ih =>
    cases s with
    | none =>
      intro x hx
      exact ih (i + 1) (by simpa [List.filterMap_cons] using h) x hx
    | some p =>
      intro x hx
      rw [contribPairs] at hx
      rcases List.mem_cons.mp hx with hx | hx
      · subst hx
        exact h p (by simp [List.filterMap_cons])
      · exact ih (i + 1) (fun s hs => h s (by simp [List.filterMap_cons, hs])) x hx

/-- C1.  The side-pot partitioner conserves chips: over any seat array
whose total-hand contributions are non-negative, the sum of the amounts
of all pots produced by `computeSidePots` equals the sum of all
total-hand contributions, exactly, in integer arithmetic. -/
theorem computeSidePots_sum_eq_contribTotal (seats : List (Option Seat))
    (h : ∀ s ∈ seats.filterMap id, 0 ≤ s.totalContrib) :
    ((computeSidePots seats).map Pot.amount).sum = contribTotal seats := by
  unfold computeSidePots contribsOf
  rw [potLayers_sum]
  rw [sum_snd_filter_pos_of_nonneg _ (contribPairs_nonneg seats 0 h)]
  exact contribPairs_snd_sum seats 0

/-- A seat with the given chips/contribution numbers and no cards, used
by concrete witness states. -/
def mkSeat (chips bet contrib : Int) (st : Status) : Seat :=
  { chips := chips, cards := [], status := st, currentBet := bet,
    totalContrib := contrib }

/-- Witness for C1: the scenario of the spec, stacks 50/100/200 all-in
with contributions 50/100/200, pots 150/100/100 summing to 350. -/
theorem computeSidePots_sum_witness :
    (∀ s ∈ ([some (mkSeat 0 0 50 Status.allin),
              some (mkSeat 0 0 100 Status.allin),
              some (mkSeat 0 0 200 Status.allin)] :
        List (Option Seat)).filterMap id, 0 ≤ s.totalContrib) ∧
    ((computeSidePots [some (mkSeat 0 0 50 Status.allin),
        some (mkSeat 0 0 100 Status.allin),
        some (mkSeat 0 0 200 Status.allin)]).map Pot.amount).sum =
      contribTotal [some (mkSeat 0 0 50 Status.allin),
        some (mkSeat 0 0 100 Status.allin),
        some (mkSeat 0 0 200 Status.allin)] :=
  ⟨by decide, computeSidePots_sum_eq_contribTotal _ (by decide)⟩

/-- `nextOccupiedSeat(room, idx)`: the first occupied slot at
`(idx+i) % MAX_SEATS` for `i = 1..MAX_SEATS`, `-1` when none. -/
def nextOccupiedSeat (room : Room) (idx : Int) : Int :=
  match (List.range MAX_SEATS).find? (fun k =>
      (seatAt room.seats (((idx + ((k : Int) + 1)) % (MAX_SEATS : Int)).toNat)).isSome) with
  | some k => (idx + ((k : Int) + 1)) % (MAX_SEATS : Int)
  | none => -1

/-- `s && s.status !== 'folded' && s.chips > 0`, the predicate of
`countActivePlayers`. -/
def isActiveSeat (s : Option Seat) : Bool :=
  match s with
  | some p => p.status != Status.folded && decide (0 < p.chips)
  | none => false

/-- `s && s.status !== 'folded'`: an occupied, non-folded seat. -/
def isLiveSeat (s : Option Seat) : Bool :=
  match s with
  | some p => p.status != Status.folded
  | none => false

/-- `s && s.status !== 'folded' && s.chips >= 0`, the predicate of the
`findIndex` in the early-termination branch of `advanceToNextAct`. -/
def isWinnerSeat (s : Option Seat) : Bool :=
  match s with
  | some p => p.status != Status.folded && decide (0 ≤ p.chips)
  | none => false

/-- `countActivePlayers`: seats that are occupied, not folded and still
have chips. -/
def countActivePlayers (room : Room) : Nat :=
  (room.seats.filter isActiveSeat).length

/-- The seat-index set
`new Set(seats.map((s,i)=> s && s.status==='in' && s.chips>0 && i!==ex ? i : -1).filter(i=>i!==-1))`
used by `resetBetsForRound` (with no excluded index) and by the raise and
all-in branches (excluding the actor), written as a recursion carrying
the running index. -/
def pendingIdx : List (Option Seat) → Nat → Option Nat → List Nat
  | [], _, _ => []
  | s :: t, i, ex =>
    let keep := (match s with
      | some p => p.status == Status.inHand && decide (0 < p.chips)
      | none => false) && ex != some i
    if keep then i :: pendingIdx t (i + 1) ex else pendingIdx t (i + 1) ex

def pendingFromSeats (seats : List (Option Seat)) (ex : Option Nat) : List Nat :=
  pendingIdx seats 0 ex

/-- `resetBetsForRound`: zero every seat's round bet, zero the room's
`currentBet`, repopulate `pendingSeats` with every in-hand seat that has
chips. -/
def resetBetsForRound (room : Room) : Room :=
  let seats := room.seats.map (fun s => s.map (fun p => { p with currentBet := 0 }))
  { room with
    seats := seats
    currentBet := 0
    pendingSeats := pendingFromSeats seats none }

/-- `deck.pop()`: remove and return the last element. -/
def popCard (deck : List Card) : Option Card × List Card :=
  (deck.getLast?, deck.dropLast)

/-- `n` consecutive `deck.pop()` calls, popped cards in call order.  A
pop of an empty deck yields nothing (it cannot occur on the modelled
paths: a 52-card deck covers 9 seats and the board). -/
def popN : Nat → List Card → List Card × List Card
  | 0, d => ([], d)
  | n + 1, d =>
    let (c, d1) := popCard d
    let (cs, d2) := popN n d1
    ((match c with | some x => [x] | none => []) ++ cs, d2)

/-- The hole-card deal of `startHand`:
`room.seats.forEach(s=>{ if(s && s.status==='in'){ s.cards = [deck.pop(), deck.pop()]; } })`. -/
def dealHoles : List (Option Seat) → List Card → List (Option Seat) × List Card
  | [], deck => ([], deck)
  | none :: t, deck =>
    let (t', d') := dealHoles t deck
    (none :: t', d')
  | some p :: t, deck =>
    if p.status == Status.inHand then
      let (cs, d2) := popN 2 deck
      let (t', d') := dealHoles t d2
      (some { p with cards := cs } :: t', d')
    else
      let (t', d') := dealHoles t deck
      (some p :: t', d')

/-- `Math.round(x * 1.5)` for an integer `x`: `3x/2` has fractional part
`0` or `0.5`, and JavaScript rounds halves up, so this is
`floor((3x+1)/2)`. -/
def roundTimes3Half (x : Int) : Int :=
  (3 * x + 1).fdiv 2

/-- The blind escalation of `startHand`:
`smallBlind = Math.max(1, Math.round(smallBlind*1.5))` followed by
`bigBlind = Math.max(smallBlind*2, Math.round(bigBlind*1.5))` (the
already-updated small blind). -/
def escalateBlinds (sb bb : Int) : Int × Int :=
  let sb' := max 1 (roundTimes3Half sb)
  (sb', max (sb' * 2) (roundTimes3Half bb))

/-- `postBlind(playerSeat, amount)` inside `startHand`: take
`min(chips, amount)` from the seat into its round bet, its total
contribution and the pot; all-in when this empties the stack. -/
def postBlind (room : Room) (playerSeat : Int) (amount : Int) : Room :=
  if 0 ≤ playerSeat then
    match seatAt room.seats playerSeat.toNat with
    | some p =>
      let take := min p.chips amount
      let p' := { p with
        chips := p.chips - take
        currentBet := p.currentBet + take
        totalContrib := p.totalContrib + take }
      let p'' := if p'.chips = 0 then { p' with status := Status.allin } else p'
      { room with
        seats := room.seats.set playerSeat.toNat (some p'')
        pot := room.pot + take }
    | none => room
  else room

/-- `room.seats[idx].currentBet` read at a possibly `-1` index (the
source would fault there; unreachable with two or more seated players). -/
def currentBetAt (seats : List (Option Seat)) (idx : Int) : Int :=
  if 0 ≤ idx then
    match seatAt seats idx.toNat with
    | some p => p.currentBet
    | none => 0
  else 0

/-- `startHand(room)` with the freshly shuffled deck passed in.  Returns
`none` exactly when the source returns `false` (fewer than two seated
players, no mutation). -/
def startHand (shuffled : List Card) (room : Room) : Option Room :=
  if (room.seats.filterMap id).length < 2 then none
  else
    let base : Int := if room.dealerIndex = -1 then (MAX_SEATS : Int) - 1 else room.dealerIndex
    let r1 := { room with dealerIndex := nextOccupiedSeat room base }
    let r2 := { r1 with
      deck := shuffled
      community := ([] : List Card)
      pot := 0
      stage := Stage.preflop
      handCount := r1.handCount + 1 }
    let r3 := if 1 < r2.handCount ∧ (r2.handCount - 1) % BLIND_INCREASE_EVERY = 0 then
        let p := escalateBlinds r2.smallBlind r2.bigBlind
        { r2 with smallBlind := p.1, bigBlind := p.2 }
      else r2
    let r4 := { r3 with seats := r3.seats.map (fun (s : Option Seat) => s.map (fun (p : Seat) =>
      { p with
        cards := ([] : List Card)
        currentBet := 0
        totalContrib := 0
        status := if p.chips ≤ 0 then Status.out else Status.inHand })) }
    let dealt := dealHoles r4.seats r4.deck
    let r5 := { r4 with seats := dealt.1, deck := dealt.2 }
    let sbSeat := nextOccupiedSeat r5 r5.dealerIndex
    let bbSeat := nextOccupiedSeat r5 sbSeat
    let r6 := postBlind r5 sbSeat r5.smallBlind
    let r7 := postBlind r6 bbSeat r6.bigBlind
    let r8 := { r7 with currentBet := max r7.currentBet (currentBetAt r7.seats bbSeat) }
    let r9 := { r8 with toActSeat := some (nextOccupiedSeat r8 bbSeat) }
    some (resetBetsForRound r9)

/-- `awardSoleWinner(room, winnerSeat)`: the surviving seat collects the
whole pot, which is then zeroed. -/
def awardSoleWinner (room : Room) (winnerSeat : Nat) : Room :=
  match seatAt room.seats winnerSeat with
  | some p =>
    { room with
      seats := room.seats.set winnerSeat (some { p with chips := p.chips + room.pot })
      pot := 0 }
  | none => room

/-- `winningSeats.slice().sort((a,b)=>a-b)[0]`: the smallest winner
index. -/
def minSeatIdx (l : List Nat) : Nat :=
  match l with
  | [] => 0
  | a :: t => t.foldl min a

/-- The per-pot split of `resolveShowdown` (lines 112-116 of the
source): `share = Math.floor(pot.amount / winningSeats.length)` to every
winner, and the whole remainder `pot.amount - share * winningSeats.length`
on top of the share of the lowest winning seat index when it is
positive.  The division is `Int` division, which agrees with
`Math.floor` on the non-negative amounts and positive winner counts that
arise. -/
def splitPot (amount : Int) (winningSeats : List Nat) : List (Nat × Int) :=
  let share := amount / (winningSeats.length : Int)
  let base := winningSeats.map (fun si => (si, share))
  let rem := amount - share * (winningSeats.length : Int)
  if 0 < rem then
    base.map (fun q => if q.1 = minSeatIdx winningSeats then (q.1, q.2 + rem) else q)
  else base

/-- `room.seats[si].chips += amt` for one split entry. -/
def creditSeat (seats : List (Option Seat)) (si : Nat) (amt : Int) :
    List (Option Seat) :=
  match seatAt seats si with
  | some p => seats.set si (some { p with chips := p.chips + amt })
  | none => seats

def applySplit (seats : List (Option Seat)) : List (Nat × Int) → List (Option Seat)
  | [] => seats
  | (si, a) :: rest => applySplit (creditSeat seats si a) rest

/-- `resolveShowdown`, with the `pokersolver` collaborator abstracted:
`solve` stands for `Hand.solve(cards).descr` and `winnersFn` for the
descriptors of `Hand.winners`.  For each side pot the non-folded
eligible seats are compared and the pot is split by `splitPot`. -/
def resolveShowdown (solve : List Card → String)
    (winnersFn : List String → List String) (room : Room) : Room :=
  let pots := computeSidePots room.seats
  let community := room.community
  pots.foldl (fun r pot =>
    let eligible := pot.eligible.filter (fun si =>
      match seatAt r.seats si with
      | some p => p.status != Status.folded
      | none => false)
    if eligible.length = 0 then r
    else
      let descrs := eligible.map (fun si =>
        solve ((match seatAt r.seats si with
          | some p => p.cards
          | none => []) ++ community))
      let winDescrs := winnersFn descrs
      let winningSeats := (eligible.zip descrs).filterMap (fun q =>
        if winDescrs.contains q.2 then some q.1 else none)
      { r with seats := applySplit r.seats (splitPot pot.amount winningSeats) })
    room

/-- The seat awarded by the early-termination branch of
`advanceToNextAct`:
`room.seats.findIndex(s => s && s.status !== 'folded' && s.chips >= 0)`. -/
def findSoleWinner (seats : List (Option Seat)) : Nat :=
  seats.findIdx isWinnerSeat

/-- The `while(tries<MAX_SEATS)` scan at the end of `advanceToNextAct`,
searching `pendingSeats` from `attempt` forward with the given fuel. -/
def advanceScanGo (pending : List Nat) : Int → Nat → Option Int
  | _, 0 => none
  | attempt, t + 1 =>
    if pending.any (fun n => (n : Int) == attempt) then some attempt
    else advanceScanGo pending ((attempt + 1) % (MAX_SEATS : Int)) t

/-- The full scan: starting from the current `toActSeat` (a `null` start
fails its membership test and continues from `null+1 = 1`), leaving
`toActSeat` unchanged when nothing is found. -/
def advanceScan (pending : List Nat) (old : Option Int) : Option Int :=
  match old with
  | some a =>
    match advanceScanGo pending a MAX_SEATS with
    | some x => some x
    | none => old
  | none =>
    match advanceScanGo pending 1 (MAX_SEATS - 1) with
    | some x => some x
    | none => old

/-- `resetBetsForRound(room); room.toActSeat = nextOccupiedSeat(room, room.dealerIndex)`
after a street is dealt. -/
def afterStreet (room : Room) : Room :=
  let r := resetBetsForRound room
  { r with toActSeat := some (nextOccupiedSeat r r.dealerIndex) }

/-- `advanceToNextAct(room)` (the deferred continuation scheduled after
a betting round; the `hand_result` emissions are dropped). -/
def advanceToNextAct (solve : List Card → String)
    (winnersFn : List String → List String) (room : Room) : Room :=
  if countActivePlayers room = 1 then
    let r := awardSoleWinner room (findSoleWinner room.seats)
    { r with stage := Stage.lobby }
  else if room.pendingSeats.length = 0 then
    match room.stage with
    | Stage.preflop =>
      let d := popN 3 room.deck
      let r := { room with community := room.community ++ d.1, deck := d.2, stage := Stage.flop }
      afterStreet r
    | Stage.flop =>
      let d := popN 1 room.deck
      let r := { room with community := room.community ++ d.1, deck := d.2, stage := Stage.turn }
      afterStreet r
    | Stage.turn =>
      let d := popN 1 room.deck
      let r := { room with community := room.community ++ d.1, deck := d.2, stage := Stage.river }
      afterStreet r
    | Stage.river =>
      let r := resolveShowdown solve winnersFn { room with stage := Stage.showdown }
      { r with pot := 0, stage := Stage.lobby }
    | _ => afterStreet room
  else
    { room with toActSeat := advanceScan room.pendingSeats room.toActSeat }

/-- A player intent of `socket.on('action', ...)`; `raiseBy`/`betBy`
carry the already-parsed `parseInt(amount)||0` value. -/
inductive PAction where
  | fold
  | check
  | call
  | raiseBy (amount : Int)
  | betBy (amount : Int)
  | allin
deriving DecidableEq, Repr

/-- Outcome of one `action` intent: `ok` with the mutated room,
`rejected msg` when the handler emits `errorMsg` and returns before any
mutation, `ignored` when it returns silently. -/
inductive ActOutcome where
  | ok (room : Room)
  | rejected (msg : String)
  | ignored
deriving DecidableEq, Repr

/-- The turn-passing scan of lines 234-238:
`next=(seatIdx+1)%9` then up to `MAX_SEATS` membership tests of
`pendingSeats`, `null` when all fail. -/
def nextToActGo (pending : List Nat) : Nat → Nat → Option Nat
  | _, 0 => none
  | next, t + 1 =>
    if pending.contains next then some next
    else nextToActGo pending ((next + 1) % MAX_SEATS) t

def recomputeToAct (pending : List Nat) (seatIdx : Nat) : Option Int :=
  match nextToActGo pending ((seatIdx + 1) % MAX_SEATS) MAX_SEATS with
  | some n => some ((n : Int))
  | none => none

/-- The common tail of every accepted action: recompute `toActSeat` from
`pendingSeats` (`null` when the round is over). -/
def finishAction (room : Room) (seatIdx : Nat) : Room :=
  if 0 < room.pendingSeats.length then
    { room with toActSeat := recomputeToAct room.pendingSeats seatIdx }
  else { room with toActSeat := none }

/-- The `socket.on('action')` handler for the seat bound to the acting
socket (room lookup and socket plumbing dropped; the deferred
`advanceToNextAct` is a separate event, see `advanceToNextAct`). -/
def applyAction (room : Room) (seatIdx : Nat) (act : PAction) : ActOutcome :=
  match seatAt room.seats seatIdx with
  | none => ActOutcome.ignored
  | some p =>
    if p.status == Status.folded || p.status == Status.out then ActOutcome.ignored
    else if room.toActSeat ≠ some ((seatIdx : Int)) then ActOutcome.rejected "Not your turn"
    else
      match act with
      | PAction.fold =>
        let seats := room.seats.set seatIdx (some { p with status := Status.folded })
        ActOutcome.ok (finishAction
          { room with seats := seats, pendingSeats := room.pendingSeats.erase seatIdx }
          seatIdx)
      | PAction.call =>
        let diff := room.currentBet - p.currentBet
        let take := min p.chips diff
        let p' := { p with
          chips := p.chips - take
          currentBet := p.currentBet + take
          totalContrib := p.totalContrib + take }
        let p'' := if p'.chips = 0 then { p' with status := Status.allin } else p'
        ActOutcome.ok (finishAction
          { room with
            seats := room.seats.set seatIdx (some p'')
            pot := room.pot + take
            pendingSeats := room.pendingSeats.erase seatIdx }
          seatIdx)
      | PAction.check =>
        if p.currentBet = room.currentBet then
          ActOutcome.ok (finishAction
            { room with pendingSeats := room.pendingSeats.erase seatIdx } seatIdx)
        else ActOutcome.rejected "Cannot check"
      | PAction.raiseBy amount | PAction.betBy amount =>
        let newBet := max amount (room.currentBet + room.bigBlind)
        let diff := newBet - p.currentBet
        if diff ≤ 0 then ActOutcome.rejected "Raise must increase"
        else
          let take := min p.chips diff
          let p' := { p with
            chips := p.chips - take
            currentBet := p.currentBet + take
            totalContrib := p.totalContrib + take }
          let seats := room.seats.set seatIdx (some p')
          ActOutcome.ok (finishAction
            { room with
              seats := seats
              pot := room.pot + take
              currentBet := p'.currentBet
              pendingSeats := pendingFromSeats seats (some seatIdx) }
            seatIdx)
      | PAction.allin =>
        let take := p.chips
        let p' := { p with
          chips := 0
          currentBet := p.currentBet + take
          totalContrib := p.totalContrib + take
          status := Status.allin }
        let seats := room.seats.set seatIdx (some p')
        if room.currentBet < p'.currentBet then
          ActOutcome.ok (finishAction
            { room with
              seats := seats
              pot := room.pot + take
              currentBet := p'.currentBet
              pendingSeats := pendingFromSeats seats (some seatIdx) }
            seatIdx)
        else
          ActOutcome.ok (finishAction
            { room with
              seats := seats
              pot := room.pot + take
              pendingSeats := room.pendingSeats.erase seatIdx }
            seatIdx)

/-- A lobby room with two funded seats (the state after `createRoom`
plus one `joinRoom`), used by concrete witness states. -/
def twoSeatRoom : Room :=
  { seats := [some (mkSeat 200 0 0 Status.waiting), some (mkSeat 200 0 0 Status.waiting),
              none, none, none, none, none, none, none]
    dealerIndex := -1
    deck := []
    community := []
    pot := 0
    stage := Stage.lobby
    currentBet := 0
    toActSeat := none
    pendingSeats := []
    handCount := 0
    smallBlind := 10
    bigBlind := 20 }

/-- A stand-in for a shuffled deck (only its tail is ever dealt on the
concrete paths exercised below). -/
def sampleDeck : List Card :=
  ["2s", "3s", "4s", "5s", "6s", "7s", "8s"]

theorem postBlind_smallBlind (r : Room) (i a : Int) :
    (postBlind r i a).smallBlind = r.smallBlind := by
  unfold postBlind
  split
  · split <;> rfl
  · rfl

theorem postBlind_bigBlind (r : Room) (i a : Int) :
    (postBlind r i a).bigBlind = r.bigBlind := by
  unfold postBlind
  split
  · split <;> rfl
  · rfl

theorem resetBetsForRound_smallBlind (r : Room) :
    (resetBetsForRound r).smallBlind = r.smallBlind := rfl

theorem resetBetsForRound_bigBlind (r : Room) :
    (resetBetsForRound r).bigBlind = r.bigBlind := rfl

/-- C3.  Counter-evaluation for the claim that right after `startHand`
the room's `currentBet` equals the big blind actually posted and the
blind seats' round contributions reflect their blinds: the source posts
the blinds and computes `room.currentBet` from the big-blind seat (line
145), but then calls `resetBetsForRound` (line 147), which zeroes every
seat's `currentBet` and the room's `currentBet` again.  On a first hand
of a two-player room with blinds 10/20 (seat 0 dealer and big blind,
seat 1 small blind), the completed `startHand` leaves `currentBet = 0`
and both round bets `0`, even though the pot correctly holds 30 and the
total contributions 20/10 — so the blinds were posted, but their
round-commitment bookkeeping is wiped. -/
theorem startHand_wipes_blind_round_bets :
    ((startHand sampleDeck twoSeatRoom).map Room.currentBet = some 0) ∧
    ((startHand sampleDeck twoSeatRoom).map Room.bigBlind = some 20) ∧
    ((startHand sampleDeck twoSeatRoom).map Room.stage = some Stage.preflop) ∧
    ((startHand sampleDeck twoSeatRoom).map Room.pot = some 30) ∧
    ((startHand sampleDeck twoSeatRoom).map
      (fun r => (seatAt r.seats 0).map Seat.currentBet) = some (some 0)) ∧
    ((startHand sampleDeck twoSeatRoom).map
      (fun r => (seatAt r.seats 1).map Seat.currentBet) = some (some 0)) ∧
    ((startHand sampleDeck twoSeatRoom).map
      (fun r => (seatAt r.seats 0).map Seat.totalContrib) = some (some 20)) ∧
    ((startHand sampleDeck twoSeatRoom).map
      (fun r => (seatAt r.seats 1).map Seat.totalContrib) = some (some 10)) := by
  decide

/-- C9.  The blind schedule: `startHand` escalates exactly on hand
numbers of the form `10·k + 1` with `k ≥ 1`; escalation applies
`escalateBlinds` (each blind multiplied by 1.5 and rounded, the big
blind clamped to at least twice the new small blind), which always
leaves `bigBlind ≥ 2 · smallBlind`; from blinds 10/20 the escalated
blinds are exactly 15/30. -/
theorem blind_schedule_correct :
    (∀ n : Nat, (1 < n ∧ (n - 1) % BLIND_INCREASE_EVERY = 0) ↔
      ∃ k : Nat, 1 ≤ k ∧ n = 10 * k + 1) ∧
    (∀ sb bb : Int, 2 * (escalateBlinds sb bb).1 ≤ (escalateBlinds sb bb).2) ∧
    (∀ shuffled room r, startHand shuffled room = some r →
      ((1 < room.handCount + 1 ∧ (room.handCount + 1 - 1) % BLIND_INCREASE_EVERY = 0) →
        (r.smallBlind, r.bigBlind) = escalateBlinds room.smallBlind room.bigBlind) ∧
      (¬ (1 < room.handCount + 1 ∧ (room.handCount + 1 - 1) % BLIND_INCREASE_EVERY = 0) →
        (r.smallBlind, r.bigBlind) = (room.smallBlind, room.bigBlind))) ∧
    escalateBlinds 10 20 = (15, 30) := by
  refine ⟨?_, ?_, ?_, by decide⟩
  · intro n
    simp only [BLIND_INCREASE_EVERY]
    constructor
    · rintro ⟨h1, h2⟩
      obtain ⟨k, hk⟩ := Nat.dvd_of_mod_eq_zero h2
      exact ⟨k, by omega, by omega⟩
    · rintro ⟨k, hk1, hk2⟩
      subst hk2
      omega
  · intro sb bb
    unfold escalateBlinds
    rw [mul_comm]
    exact le_max_left _ _
  · intro shuffled room r hsh
    unfold startHand at hsh
    by_cases hg : (room.seats.filterMap id).length < 2
    · rw [if_pos hg] at hsh
      exact absurd hsh (by simp)
    · rw [if_neg hg] at hsh
      dsimp only at hsh
      have hr : r = _ := (Option.some.injEq _ _ ▸ hsh).symm
      constructor
      · intro hcond
        rw [hr]
        rw [if_pos hcond]
        simp only [resetBetsForRound_smallBlind, resetBetsForRound_bigBlind,
          postBlind_smallBlind, postBlind_bigBlind]
      · intro hcond
        rw [hr]
        rw [if_neg hcond]
        simp only [resetBetsForRound_smallBlind, resetBetsForRound_bigBlind,
          postBlind_smallBlind, postBlind_bigBlind]

/-- The two-seat room at its eleventh hand (ten completed hands). -/
def tenthHandRoom : Room :=
  { twoSeatRoom with handCount := 10 }

/-- Witness for C9: starting hand 11 from blinds 10/20 escalates them to
exactly 15/30. -/
theorem blind_schedule_witness :
    ((startHand sampleDeck tenthHandRoom).map
      (fun r => (r.smallBlind, r.bigBlind))) = some (15, 30) := by
  cases hsh : startHand sampleDeck tenthHandRoom with
  | none => exact absurd hsh (by decide)
  | some r =>
    have h := (blind_schedule_correct.2.2.1 sampleDeck tenthHandRoom r hsh).1 (by decide)
    show some (r.smallBlind, r.bigBlind) = some (15, 30)
    rw [h]
    decide

theorem minSeatIdx_mem (l : List Nat) (h : l ≠ []) : minSeatIdx l ∈ l := by
  match l with
  | [] => exact absurd rfl h
  | a :: t =>
    show List.foldl min a t ∈ a :: t
    rcases foldl_min_attained t a with h1 | h1
    · rw [h1]; exact List.mem_cons_self a t
    · exact List.mem_cons_of_mem a h1

theorem minSeatIdx_le (l : List Nat) (y : Nat) (hy : y ∈ l) : minSeatIdx l ≤ y := by
  match l with
  | [] => cases hy
  | a :: t =>
    show List.foldl min a t ≤ y
    rcases List.mem_cons.mp hy with h1 | h1
    · subst h1; exact foldl_min_le_init t y
    · exact foldl_min_le_mem t a y h1

theorem sum_map_const_pairs (ws : List Nat) (v : Int) :
    ((ws.map (fun si => (si, v))).map Prod.snd).sum = v * (ws.length : Int) := by
  induction ws with
  | nil => simp
  | cons a t ih =>
    simp only [List.map_cons, List.sum_cons, ih, List.length_cons]
    push_cast
    ring

theorem sum_bump_not_mem (base : List (Nat × Int)) (m : Nat) (rem : Int)
    (h : ∀ q ∈ base, q.1 ≠ m) :
    ((base.map (fun q => if q.1 = m then (q.1, q.2 + rem) else q)).map Prod.snd).sum
      = (base.map Prod.snd).sum := by
  induction base with
  | nil => rfl
  | cons b t ih =>
    have hb : b.1 ≠ m := h b (List.mem_cons_self b t)
    have ht : ∀ q ∈ t, q.1 ≠ m := fun q hq => h q (List.mem_cons_of_mem b hq)
    simp only [List.map_cons, List.sum_cons, if_neg hb, ih ht]

theorem sum_bump_single (base : List (Nat × Int)) (m : Nat) (rem : Int)
    (hnd : (base.map Prod.fst).Nodup) (hmem : m ∈ base.map Prod.fst) :
    ((base.map (fun q => if q.1 = m then (q.1, q.2 + rem) else q)).map Prod.snd).sum
      = (base.map Prod.snd).sum + rem := by
  induction base with
  | nil => cases hmem
  | cons b t ih =>
    rw [List.map_cons] at hnd hmem
    have hnd' := List.nodup_cons.mp hnd
    by_cases hb : b.1 = m
    · have ht : ∀ q ∈ t, q.1 ≠ m := by
        intro q hq hqm
        have hq1 : q.1 ∈ t.map Prod.fst := List.mem_map_of_mem Prod.fst hq
        rw [hqm, ← hb] at hq1
        exact hnd'.1 hq1
      simp only [List.map_cons, List.sum_cons, if_pos hb, sum_bump_not_mem t m rem ht]
      ring
    · have hmt : m ∈ t.map Prod.fst := by
        rcases List.mem_cons.mp hmem with h1 | h1
        · exact absurd h1.symm hb
        · exact h1
      simp only [List.map_cons, List.sum_cons, if_neg hb, ih hnd'.2 hmt]
      ring

/-- `splitPot` with its local bindings laid out. -/
theorem splitPot_eq (amount : Int) (ws : List Nat) :
    splitPot amount ws =
      (if 0 < amount - amount / (ws.length : Int) * (ws.length : Int)
       then (ws.map (fun si => (si, amount / (ws.length : Int)))).map
         (fun q => if q.1 = minSeatIdx ws
           then (q.1, q.2 + (amount - amount / (ws.length : Int) * (ws.length : Int)))
           else q)
       else ws.map (fun si => (si, amount / (ws.length : Int)))) := rfl

/-- C4.  The per-pot split of `resolveShowdown`: with a non-empty,
duplicate-free winner list, every winner's share is the pot amount by
integer floor division, the whole remainder is added to the winner with
the lowest seat index, the shares always sum exactly to the pot amount,
and in particular a pot of 100 among 3 winners splits as 34/33/33 with
the extra chip on the lowest seat index. -/
theorem splitPot_floor_remainder (amount : Int) (ws : List Nat)
    (hne : ws ≠ []) (hnd : ws.Nodup) :
    ((splitPot amount ws).map Prod.snd).sum = amount ∧
    (∀ q ∈ splitPot amount ws,
      q.2 = amount / (ws.length : Int) +
        (if q.1 = minSeatIdx ws ∧ 0 < amount - amount / (ws.length : Int) * (ws.length : Int)
         then amount - amount / (ws.length : Int) * (ws.length : Int) else 0)) ∧
    splitPot 100 [0, 1, 2] = [(0, 34), (1, 33), (2, 33)] := by
  have hlen0 : ws.length ≠ 0 := fun h => hne (List.eq_nil_of_length_eq_zero h)
  have hlenZ : ((ws.length : Int)) ≠ 0 := by exact_mod_cast hlen0
  have hmod_nonneg : 0 ≤ amount % (ws.length : Int) := Int.emod_nonneg amount hlenZ
  have hmod_eq : amount % (ws.length : Int)
      = amount - amount / (ws.length : Int) * (ws.length : Int) := by
    rw [Int.emod_def]
    ring
  refine ⟨?_, ?_, by decide⟩
  · rw [splitPot_eq]
    set share := amount / (ws.length : Int) with hshare
    set rem := amount - share * (ws.length : Int) with hrem
    have hrem_nonneg : 0 ≤ rem := by
      rw [← hmod_eq]
      exact hmod_nonneg
    have hfst : (ws.map (fun si => (si, share))).map Prod.fst = ws := by
      rw [List.map_map]
      exact List.map_id ws
    have hnd2 : ((ws.map (fun si => (si, share))).map Prod.fst).Nodup := by
      rw [hfst]; exact hnd
    have hmm : minSeatIdx ws ∈ (ws.map (fun si => (si, share))).map Prod.fst := by
      rw [hfst]; exact minSeatIdx_mem ws hne
    by_cases hr : 0 < rem
    · rw [if_pos hr, sum_bump_single _ _ _ hnd2 hmm, sum_map_const_pairs, hrem]
      ring
    · rw [if_neg hr, sum_map_const_pairs]
      have h0 : rem = 0 := le_antisymm (not_lt.mp hr) hrem_nonneg
      rw [hrem] at h0
      linarith
  · intro q hq
    rw [splitPot_eq] at hq
    set share := amount / (ws.length : Int) with hshare
    set rem := amount - share * (ws.length : Int) with hrem
    by_cases hr : 0 < rem
    · rw [if_pos hr] at hq
      rcases List.mem_map.mp hq with ⟨q0, hq0, hqe⟩
      rcases List.mem_map.mp hq0 with ⟨si, _, hsi⟩
      subst hsi
      by_cases hsm : si = minSeatIdx ws
      · rw [if_pos hsm] at hqe
        rw [← hqe]
        rw [if_pos ⟨hsm, hr⟩]
      · rw [if_neg hsm] at hqe
        rw [← hqe]
        rw [if_neg (fun hc => hsm hc.1)]
        ring
    · rw [if_neg hr] at hq
      rcases List.mem_map.mp hq with ⟨si, _, hsi⟩
      subst hsi
      rw [if_neg (fun hc => hr hc.2)]
      ring

/-- Witness for C4 at pot 100 with tied winners at seats 0, 1, 2. -/
theorem splitPot_floor_remainder_witness :
    (([0, 1, 2] : List Nat) ≠ [] ∧ ([0, 1, 2] : List Nat).Nodup) ∧
    ((splitPot 100 [0, 1, 2]).map Prod.snd).sum = 100 :=
  ⟨⟨by decide, by decide⟩,
    (splitPot_floor_remainder 100 [0, 1, 2] (by decide) (by decide)).1⟩

theorem seatAt_nil (n : Nat) : seatAt [] n = none := rfl

theorem seatAt_cons_zero (s : Option Seat) (t : List (Option Seat)) :
    seatAt (s :: t) 0 = s := rfl

theorem seatAt_cons_succ (s : Option Seat) (t : List (Option Seat)) (n : Nat) :
    seatAt (s :: t) (n + 1) = seatAt t n := rfl

/-- `finishAction` only recomputes `toActSeat`. -/
theorem finishAction_eq (r : Room) (i : Nat) :
    finishAction r i = { r with toActSeat :=
      if 0 < r.pendingSeats.length then recomputeToAct r.pendingSeats i else none } := by
  unfold finishAction
  split
  · rfl
  · rfl

theorem pendingIdx_ge (seats : List (Option Seat)) :
    ∀ (k : Nat) (ex : Option Nat) (j : Nat), j ∈ pendingIdx seats k ex → k ≤ j := by
  induction seats with
  | nil =>
    intro k ex j hj
    cases hj
  | cons s t ih =>
    intro k ex j hj
    simp only [pendingIdx] at hj
    split at hj
    · rcases List.mem_cons.mp hj with h | h
      · omega
      · have := ih (k + 1) ex j h
        omega
    · have := ih (k + 1) ex j hj
      omega

theorem pendingIdx_mem_iff (seats : List (Option Seat)) :
    ∀ (k : Nat) (ex : Option Nat) (j : Nat),
      j ∈ pendingIdx seats k ex ↔
        (k ≤ j ∧ ex ≠ some j ∧
          ∃ q, seatAt seats (j - k) = some q ∧ q.status = Status.inHand ∧ 0 < q.chips) := by
  induction seats with
  | nil =>
    intro k ex j
    constructor
    · intro hj; cases hj
    · rintro ⟨-, -, q, hq, -⟩
      rw [seatAt_nil] at hq
      cases hq
  | cons s t ih =>
    intro k ex j
    simp only [pendingIdx]
    by_cases hjk : j = k
    · subst hjk
      have hsub : j - j = 0 := by omega
      rw [hsub, seatAt_cons_zero]
      split
      · next hkeep =>
        simp only [List.mem_cons]
        constructor
        · intro _
          refine ⟨le_refl j, ?_, ?_⟩
          · intro hex
            rw [hex] at hkeep
            simp at hkeep
          · cases s with
            | none => simp at hkeep
            | some p =>
              refine ⟨p, rfl, ?_, ?_⟩
              · have := (Bool.and_eq_true _ _).mp hkeep
                have h2 := (Bool.and_eq_true _ _).mp this.1
                exact eq_of_beq h2.1
              · have := (Bool.and_eq_true _ _).mp hkeep
                have h2 := (Bool.and_eq_true _ _).mp this.1
                exact of_decide_eq_true h2.2
        · intro _
          left
          trivial
      · next hkeep =>
        constructor
        · intro hj
          have := pendingIdx_ge t (j + 1) ex j hj
          omega
        · rintro ⟨-, hex, q, hq, hst, hch⟩
          exfalso
          apply hkeep
          subst hq
          have hb1 : (q.status == Status.inHand) = true := by
            simp [hst]
          have hb2 : decide (0 < q.chips) = true := decide_eq_true hch
          have hb3 : (ex != some j) = true := by
            cases ex with
            | none => rfl
            | some e =>
              have : e ≠ j := fun he => hex (he ▸ rfl)
              simp [this]
          dsimp only
          rw [hb1, hb2, hb3]
          rfl
    · by_cases hlt : j < k
      · constructor
        · intro hj
          split at hj
          · rcases List.mem_cons.mp hj with h | h
            · exact absurd h hjk
            · have := pendingIdx_ge t (k + 1) ex j h
              omega
          · have := pendingIdx_ge t (k + 1) ex j hj
            omega
        · rintro ⟨hk, -⟩
          omega
      · have hgt : k + 1 ≤ j := by omega
        have hsub : j - k = (j - (k + 1)) + 1 := by omega
        rw [hsub, seatAt_cons_succ]
        have hIH := ih (k + 1) ex j
        constructor
        · intro hj
          have hmem : j ∈ pendingIdx t (k + 1) ex := by
            split at hj
            · rcases List.mem_cons.mp hj with h | h
              · exact absurd h hjk
              · exact h
            · exact hj
          have := hIH.mp hmem
          exact ⟨by omega, this.2.1, this.2.2⟩
        · rintro ⟨-, hex, hq⟩
          have hmem : j ∈ pendingIdx t (k + 1) ex := hIH.mpr ⟨hgt, hex, hq⟩
          split
          · exact List.mem_cons_of_mem _ hmem
          · exact hmem

/-- Membership in the recomputed `pendingSeats` of a raise or reopening
all-in: exactly the occupied in-hand seats with chips, minus the actor. -/
theorem pendingFromSeats_mem (seats : List (Option Seat)) (ex : Option Nat) (j : Nat) :
    j ∈ pendingFromSeats seats ex ↔
      (ex ≠ some j ∧
        ∃ q, seatAt seats j = some q ∧ q.status = Status.inHand ∧ 0 < q.chips) := by
  unfold pendingFromSeats
  rw [pendingIdx_mem_iff]
  have : j - 0 = j := by omega
  rw [this]
  constructor
  · rintro ⟨-, h2, h3⟩
    exact ⟨h2, h3⟩
  · rintro ⟨h2, h3⟩
    exact ⟨Nat.zero_le j, h2, h3⟩

theorem applyAction_check_eq (room : Room) (i : Nat) (p : Seat)
    (hseat : seatAt room.seats i = some p)
    (hst1 : p.status ≠ Status.folded) (hst2 : p.status ≠ Status.out)
    (hturn : room.toActSeat = some ((i : Int))) :
    applyAction room i PAction.check =
      (if p.currentBet = room.currentBet
       then ActOutcome.ok (finishAction
         { room with pendingSeats := room.pendingSeats.erase i } i)
       else ActOutcome.rejected "Cannot check") := by
  unfold applyAction
  rw [hseat]
  dsimp only
  rw [if_neg (by simp [hst1, hst2])]
  rw [if_neg (by simp [hturn])]

theorem applyAction_fold_eq (room : Room) (i : Nat) (p : Seat)
    (hseat : seatAt room.seats i = some p)
    (hst1 : p.status ≠ Status.folded) (hst2 : p.status ≠ Status.out)
    (hturn : room.toActSeat = some ((i : Int))) :
    applyAction room i PAction.fold =
      ActOutcome.ok (finishAction { room with
        seats := room.seats.set i (some { p with status := Status.folded }),
        pendingSeats := room.pendingSeats.erase i } i) := by
  unfold applyAction
  rw [hseat]
  dsimp only
  rw [if_neg (by simp [hst1, hst2])]
  rw [if_neg (by simp [hturn])]

theorem applyAction_call_eq (room : Room) (i : Nat) (p : Seat)
    (hseat : seatAt room.seats i = some p)
    (hst1 : p.status ≠ Status.folded) (hst2 : p.status ≠ Status.out)
    (hturn : room.toActSeat = some ((i : Int))) :
    applyAction room i PAction.call =
      (let take := min p.chips (room.currentBet - p.currentBet)
       let p2 : Seat := { p with
         chips := p.chips - take
         currentBet := p.currentBet + take
         totalContrib := p.totalContrib + take }
       ActOutcome.ok (finishAction { room with
         seats := room.seats.set i
           (some (if p2.chips = 0 then { p2 with status := Status.allin } else p2))
         pot := room.pot + take
         pendingSeats := room.pendingSeats.erase i } i)) := by
  unfold applyAction
  rw [hseat]
  dsimp only
  rw [if_neg (by simp [hst1, hst2])]
  rw [if_neg (by simp [hturn])]

theorem applyAction_allin_eq (room : Room) (i : Nat) (p : Seat)
    (hseat : seatAt room.seats i = some p)
    (hst1 : p.status ≠ Status.folded) (hst2 : p.status ≠ Status.out)
    (hturn : room.toActSeat = some ((i : Int))) :
    applyAction room i PAction.allin =
      (let p2 : Seat := { p with
         chips := 0
         currentBet := p.currentBet + p.chips
         totalContrib := p.totalContrib + p.chips
         status := Status.allin }
       let seats2 := room.seats.set i (some p2)
       if room.currentBet < p2.currentBet
       then ActOutcome.ok (finishAction { room with
         seats := seats2
         pot := room.pot + p.chips
         currentBet := p2.currentBet
         pendingSeats := pendingFromSeats seats2 (some i) } i)
       else ActOutcome.ok (finishAction { room with
         seats := seats2
         pot := room.pot + p.chips
         pendingSeats := room.pendingSeats.erase i } i)) := by
  unfold applyAction
  rw [hseat]
  dsimp only
  rw [if_neg (by simp [hst1, hst2])]
  rw [if_neg (by simp [hturn])]

theorem applyAction_raise_eq (room : Room) (i : Nat) (p : Seat) (amount : Int)
    (hseat : seatAt room.seats i = some p)
    (hst1 : p.status ≠ Status.folded) (hst2 : p.status ≠ Status.out)
    (hturn : room.toActSeat = some ((i : Int))) :
    applyAction room i (PAction.raiseBy amount) =
      (let newBet := max amount (room.currentBet + room.bigBlind)
       let diff := newBet - p.currentBet
       if diff ≤ 0 then ActOutcome.rejected "Raise must increase"
       else
         let take := min p.chips diff
         let p2 : Seat := { p with
           chips := p.chips - take
           currentBet := p.currentBet + take
           totalContrib := p.totalContrib + take }
         let seats2 := room.seats.set i (some p2)
         ActOutcome.ok (finishAction { room with
           seats := seats2
           pot := room.pot + take
           currentBet := p2.currentBet
           pendingSeats := pendingFromSeats seats2 (some i) } i)) := by
  unfold applyAction
  rw [hseat]
  dsimp only
  rw [if_neg (by simp [hst1, hst2])]
  rw [if_neg (by simp [hturn])]

theorem applyAction_bet_eq_raise (room : Room) (i : Nat) (amount : Int) :
    applyAction room i (PAction.betBy amount) = applyAction room i (PAction.raiseBy amount) := by
  unfold applyAction
  rfl

/-- C8.  A check by the seat to act succeeds — removing the seat from
`pendingSeats` and recomputing only `toActSeat`, with every other room
field untouched — exactly when the seat's round bet equals the room's
`currentBet`; otherwise the handler rejects with `Cannot check` having
mutated nothing (the error is emitted only to the acting socket). -/
theorem check_legal_iff_matched (room : Room) (i : Nat) (p : Seat)
    (hseat : seatAt room.seats i = some p)
    (hst1 : p.status ≠ Status.folded) (hst2 : p.status ≠ Status.out)
    (hturn : room.toActSeat = some ((i : Int))) :
    ((∃ r', applyAction room i PAction.check = ActOutcome.ok r' ∧
        r'.pendingSeats = room.pendingSeats.erase i ∧
        r'.seats = room.seats ∧ r'.pot = room.pot ∧
        r'.currentBet = room.currentBet ∧ r'.stage = room.stage ∧
        r'.community = room.community ∧ r'.deck = room.deck ∧
        r'.smallBlind = room.smallBlind ∧ r'.bigBlind = room.bigBlind ∧
        r'.handCount = room.handCount ∧ r'.dealerIndex = room.dealerIndex)
      ↔ p.currentBet = room.currentBet) ∧
    (p.currentBet ≠ room.currentBet →
      applyAction room i PAction.check = ActOutcome.rejected "Cannot check") := by
  have heq := applyAction_check_eq room i p hseat hst1 hst2 hturn
  constructor
  · constructor
    · rintro ⟨r', hok, -⟩
      by_contra hne
      rw [heq, if_neg hne] at hok
      cases hok
    · intro hpe
      refine ⟨finishAction { room with pendingSeats := room.pendingSeats.erase i } i,
        by rw [heq, if_pos hpe], ?_⟩
      rw [finishAction_eq]
      simp
  · intro hne
    rw [heq, if_neg hne]

/-- A mid-hand room: seat 0 big blind (bet 20), seat 1 small blind
(bet 10), seat 1 to act facing `currentBet = 20`. -/
def actRoom : Room :=
  { seats := [some { chips := 180, cards := ["As", "Kd"], status := Status.inHand,
                     currentBet := 20, totalContrib := 20 },
              some { chips := 190, cards := ["7h", "2c"], status := Status.inHand,
                     currentBet := 10, totalContrib := 10 },
              none, none, none, none, none, none, none]
    dealerIndex := 0
    deck := ["2s", "3s", "4s", "5s", "6s"]
    community := []
    pot := 30
    stage := Stage.preflop
    currentBet := 20
    toActSeat := some 1
    pendingSeats := [0, 1]
    handCount := 1
    smallBlind := 10
    bigBlind := 20 }

/-- Witness for C8: in `actRoom`, seat 1 has bet 10 against a current
bet of 20, so its check is rejected with no mutation. -/
theorem check_witness :
    applyAction actRoom 1 PAction.check = ActOutcome.rejected "Cannot check" :=
  (check_legal_iff_matched actRoom 1
    { chips := 190, cards := ["7h", "2c"], status := Status.inHand,
      currentBet := 10, totalContrib := 10 }
    (by decide) (by decide) (by decide) (by decide)).2 (by decide)

theorem seatAt_lt_length (seats : List (Option Seat)) (i : Nat) (p : Seat)
    (h : seatAt seats i = some p) : i < seats.length := by
  by_contra h'
  rw [seatAt, List.getD_eq_default _ _ (Nat.le_of_not_lt h')] at h
  cases h

theorem seatAt_set_self (seats : List (Option Seat)) (i : Nat) (v : Option Seat)
    (h : i < seats.length) : seatAt (seats.set i v) i = v := by
  induction seats generalizing i with
  | nil => cases h
  | cons s t ih =>
    cases i with
    | zero => rfl
    | succ n =>
      rw [List.set_cons_succ, seatAt_cons_succ]
      exact ih n (by simpa using h)

theorem seatAt_set_ne (seats : List (Option Seat)) (i j : Nat) (v : Option Seat)
    (hne : i ≠ j) : seatAt (seats.set i v) j = seatAt seats j := by
  induction seats generalizing i j with
  | nil => rfl
  | cons s t ih =>
    cases i with
    | zero =>
      cases j with
      | zero => exact absurd rfl hne
      | succ m => rfl
    | succ n =>
      cases j with
      | zero => rfl
      | succ m =>
        rw [List.set_cons_succ, seatAt_cons_succ, seatAt_cons_succ]
        exact ih n m (fun h => hne (h ▸ rfl))

/-- The room of a successful action outcome. -/
def okRoom : ActOutcome → Option Room
  | ActOutcome.ok r => some r
  | ActOutcome.rejected _ => none
  | ActOutcome.ignored => none

/-- C6.  An all-in by the seat to act pays the entire remaining stack
(chips 0, bet and contribution grown by the stack, status all-in, pot
grown by the stack); `pendingSeats` is reopened to exactly the other
occupied in-hand seats with chips — even when the shove is less than a
full raise increment — precisely when the resulting round total exceeds
`currentBet` (which then becomes that total); otherwise the seat is
simply removed from `pendingSeats`. -/
theorem allin_semantics (room : Room) (i : Nat) (p : Seat)
    (hseat : seatAt room.seats i = some p)
    (hst1 : p.status ≠ Status.folded) (hst2 : p.status ≠ Status.out)
    (hturn : room.toActSeat = some ((i : Int))) :
    ∃ r', applyAction room i PAction.allin = ActOutcome.ok r' ∧
      seatAt r'.seats i = some { p with
        chips := 0
        currentBet := p.currentBet + p.chips
        totalContrib := p.totalContrib + p.chips
        status := Status.allin } ∧
      r'.pot = room.pot + p.chips ∧
      r'.currentBet = (if room.currentBet < p.currentBet + p.chips
        then p.currentBet + p.chips else room.currentBet) ∧
      (∀ j, j ∈ r'.pendingSeats ↔
        (if room.currentBet < p.currentBet + p.chips
         then j ≠ i ∧ ∃ q, seatAt room.seats j = some q ∧
           q.status = Status.inHand ∧ 0 < q.chips
         else j ∈ room.pendingSeats.erase i)) := by
  have hlen := seatAt_lt_length room.seats i p hseat
  rw [applyAction_allin_eq room i p hseat hst1 hst2 hturn]
  dsimp only
  by_cases hc : room.currentBet < p.currentBet + p.chips
  · rw [if_pos hc]
    refine ⟨_, rfl, ?_, ?_, ?_, ?_⟩
    · rw [finishAction_eq]
      exact seatAt_set_self room.seats i _ hlen
    · rw [finishAction_eq]
    · rw [finishAction_eq, if_pos hc]
    · intro j
      rw [finishAction_eq, if_pos hc]
      show j ∈ pendingFromSeats (room.seats.set i _) (some i) ↔ _
      rw [pendingFromSeats_mem]
      constructor
      · rintro ⟨hij, q, hq, hqs, hqc⟩
        have hji : j ≠ i := fun h => hij (h ▸ rfl)
        rw [seatAt_set_ne room.seats i j _ (fun h => hji h.symm)] at hq
        exact ⟨hji, q, hq, hqs, hqc⟩
      · rintro ⟨hji, q, hq, hqs, hqc⟩
        refine ⟨fun h => hji (Option.some.inj h).symm, q, ?_, hqs, hqc⟩
        rw [seatAt_set_ne room.seats i j _ (fun h => hji h.symm)]
        exact hq
  · rw [if_neg hc]
    refine ⟨_, rfl, ?_, ?_, ?_, ?_⟩
    · rw [finishAction_eq]
      exact seatAt_set_self room.seats i _ hlen
    · rw [finishAction_eq]
    · rw [finishAction_eq, if_neg hc]
    · intro j
      rw [finishAction_eq, if_neg hc]

/-- Witness for C6: seat 1 of `actRoom` shoves its 190 chips; the
resulting round total 200 exceeds the current bet 20 and the pot grows
by the whole stack to 220. -/
theorem allin_semantics_witness :
    (okRoom (applyAction actRoom 1 PAction.allin)).map Room.pot = some 220 := by
  obtain ⟨r', hok, -, hpot, -, -⟩ := allin_semantics actRoom 1
    { chips := 190, cards := ["7h", "2c"], status := Status.inHand,
      currentBet := 10, totalContrib := 10 }
    (by decide) (by decide) (by decide) (by decide)
  rw [hok]
  show some r'.pot = some 220
  rw [hpot]
  decide

/-- Membership in a raise's recomputed `pendingSeats` (built from the
seat array with the actor's entry overwritten, excluding the actor):
exactly the other occupied in-hand seats with chips. -/
theorem pendingFromSeats_set_mem (seats : List (Option Seat)) (i : Nat)
    (v : Option Seat) (j : Nat) :
    j ∈ pendingFromSeats (seats.set i v) (some i) ↔
      (j ≠ i ∧ ∃ q, seatAt seats j = some q ∧
        q.status = Status.inHand ∧ 0 < q.chips) := by
  rw [pendingFromSeats_mem]
  constructor
  · rintro ⟨hij, q, hq, hqs, hqc⟩
    have hji : j ≠ i := fun h => hij (h ▸ rfl)
    rw [seatAt_set_ne seats i j v (fun h => hji h.symm)] at hq
    exact ⟨hji, q, hq, hqs, hqc⟩
  · rintro ⟨hji, q, hq, hqs, hqc⟩
    refine ⟨fun h => hji (Option.some.inj h).symm, q, ?_, hqs, hqc⟩
    rw [seatAt_set_ne seats i j v (fun h => hji h.symm)]
    exact hq

/-- C7.  A bet is processed identically to a raise; the target round
total is `max(requestedAmount, currentBet + bigBlind)`; when the
increment over the actor's round bet is ≤ 0 the action is rejected with
no state change; otherwise the actor pays the increment capped at its
stack, `currentBet` becomes the actor's new round total, and
`pendingSeats` becomes exactly the other occupied in-hand seats with
chips, the raiser excluded. -/
theorem raise_semantics (room : Room) (i : Nat) (p : Seat) (amount : Int)
    (hseat : seatAt room.seats i = some p)
    (hst1 : p.status ≠ Status.folded) (hst2 : p.status ≠ Status.out)
    (hturn : room.toActSeat = some ((i : Int))) :
    applyAction room i (PAction.betBy amount) = applyAction room i (PAction.raiseBy amount) ∧
    (max amount (room.currentBet + room.bigBlind) - p.currentBet ≤ 0 →
      applyAction room i (PAction.raiseBy amount) = ActOutcome.rejected "Raise must increase") ∧
    (0 < max amount (room.currentBet + room.bigBlind) - p.currentBet →
      ∃ r', applyAction room i (PAction.raiseBy amount) = ActOutcome.ok r' ∧
        seatAt r'.seats i = some { p with
          chips := p.chips -
            min p.chips (max amount (room.currentBet + room.bigBlind) - p.currentBet)
          currentBet := p.currentBet +
            min p.chips (max amount (room.currentBet + room.bigBlind) - p.currentBet)
          totalContrib := p.totalContrib +
            min p.chips (max amount (room.currentBet + room.bigBlind) - p.currentBet) } ∧
        r'.pot = room.pot +
          min p.chips (max amount (room.currentBet + room.bigBlind) - p.currentBet) ∧
        r'.currentBet = p.currentBet +
          min p.chips (max amount (room.currentBet + room.bigBlind) - p.currentBet) ∧
        (∀ j, j ∈ r'.pendingSeats ↔ (j ≠ i ∧ ∃ q, seatAt room.seats j = some q ∧
          q.status = Status.inHand ∧ 0 < q.chips))) := by
  have heq := applyAction_raise_eq room i p amount hseat hst1 hst2 hturn
  refine ⟨applyAction_bet_eq_raise room i amount, ?_, ?_⟩
  · intro hle
    rw [heq]
    dsimp only
    rw [if_pos hle]
  · intro hpos
    have hlen := seatAt_lt_length room.seats i p hseat
    rw [heq]
    dsimp only
    rw [if_neg (not_le.mpr hpos)]
    refine ⟨_, rfl, ?_, ?_, ?_, ?_⟩
    · rw [finishAction_eq]
      exact seatAt_set_self room.seats i _ hlen
    · rw [finishAction_eq]
    · rw [finishAction_eq]
    · intro j
      rw [finishAction_eq]
      exact pendingFromSeats_set_mem room.seats i _ j

/-- Witness for C7: seat 1 of `actRoom` raises to a requested 60; the
increment over its round bet 10 is 50 > 0, and the pot grows to 80. -/
theorem raise_semantics_witness :
    (okRoom (applyAction actRoom 1 (PAction.raiseBy 60))).map Room.pot = some 80 := by
  obtain ⟨r', hok, -, hpot, -, -⟩ := (raise_semantics actRoom 1
    { chips := 190, cards := ["7h", "2c"], status := Status.inHand,
      currentBet := 10, totalContrib := 10 } 60
    (by decide) (by decide) (by decide) (by decide)).2.2 (by decide)
  rw [hok]
  show some r'.pot = some 80
  rw [hpot]
  decide

/-- C10.  A bet/raise whose paid increment swallows the actor's whole
stack leaves chips at 0 but the status untouched (still `in`): the
raise branch never sets all-in — while a stack-exhausting call, and any
all-in, do set status to all-in with chips 0. -/
theorem fullstack_raise_keeps_status (room : Room) (i : Nat) (p : Seat) (amount : Int)
    (hseat : seatAt room.seats i = some p)
    (hst1 : p.status ≠ Status.folded) (hst2 : p.status ≠ Status.out)
    (hturn : room.toActSeat = some ((i : Int))) :
    (0 < max amount (room.currentBet + room.bigBlind) - p.currentBet →
      p.chips ≤ max amount (room.currentBet + room.bigBlind) - p.currentBet →
      ∃ r' q, applyAction room i (PAction.raiseBy amount) = ActOutcome.ok r' ∧
        seatAt r'.seats i = some q ∧ q.chips = 0 ∧ q.status = p.status) ∧
    (p.chips ≤ room.currentBet - p.currentBet →
      ∃ r' q, applyAction room i PAction.call = ActOutcome.ok r' ∧
        seatAt r'.seats i = some q ∧ q.chips = 0 ∧ q.status = Status.allin) ∧
    (∃ r' q, applyAction room i PAction.allin = ActOutcome.ok r' ∧
      seatAt r'.seats i = some q ∧ q.chips = 0 ∧ q.status = Status.allin) := by
  have hlen := seatAt_lt_length room.seats i p hseat
  refine ⟨?_, ?_, ?_⟩
  · intro hpos hexh
    rw [applyAction_raise_eq room i p amount hseat hst1 hst2 hturn]
    dsimp only
    rw [if_neg (not_le.mpr hpos)]
    refine ⟨_, { p with
        chips := p.chips -
          min p.chips (max amount (room.currentBet + room.bigBlind) - p.currentBet)
        currentBet := p.currentBet +
          min p.chips (max amount (room.currentBet + room.bigBlind) - p.currentBet)
        totalContrib := p.totalContrib +
          min p.chips (max amount (room.currentBet + room.bigBlind) - p.currentBet) },
      rfl, ?_, ?_, rfl⟩
    · rw [finishAction_eq]
      exact seatAt_set_self room.seats i _ hlen
    · show p.chips - min p.chips (max amount (room.currentBet + room.bigBlind) - p.currentBet) = 0
      rw [min_eq_left hexh]
      omega
  · intro hexh
    have h0 : p.chips - min p.chips (room.currentBet - p.currentBet) = 0 := by
      rw [min_eq_left hexh]
      omega
    rw [applyAction_call_eq room i p hseat hst1 hst2 hturn]
    dsimp only
    rw [if_pos h0]
    refine ⟨_, { p with
        chips := p.chips - min p.chips (room.currentBet - p.currentBet)
        currentBet := p.currentBet + min p.chips (room.currentBet - p.currentBet)
        totalContrib := p.totalContrib + min p.chips (room.currentBet - p.currentBet)
        status := Status.allin },
      rfl, ?_, h0, rfl⟩
    rw [finishAction_eq]
    exact seatAt_set_self room.seats i _ hlen
  · rw [applyAction_allin_eq room i p hseat hst1 hst2 hturn]
    dsimp only
    by_cases hc : room.currentBet < p.currentBet + p.chips
    · rw [if_pos hc]
      refine ⟨_, { p with
          chips := 0
          currentBet := p.currentBet + p.chips
          totalContrib := p.totalContrib + p.chips
          status := Status.allin },
        rfl, ?_, rfl, rfl⟩
      rw [finishAction_eq]
      exact seatAt_set_self room.seats i _ hlen
    · rw [if_neg hc]
      refine ⟨_, { p with
          chips := 0
          currentBet := p.currentBet + p.chips
          totalContrib := p.totalContrib + p.chips
          status := Status.allin },
        rfl, ?_, rfl, rfl⟩
      rw [finishAction_eq]
      exact seatAt_set_self room.seats i _ hlen

/-- Witness for C10: seat 1 of `actRoom` raises to a requested 300; the
increment 290 exceeds its 190-chip stack, so it pays everything, ending
with 0 chips yet still status `in` (not all-in). -/
theorem fullstack_raise_keeps_status_witness :
    (okRoom (applyAction actRoom 1 (PAction.raiseBy 300))).map
      (fun r => (seatAt r.seats 1).map (fun q => (q.chips, q.status)))
      = some (some (0, Status.inHand)) := by
  obtain ⟨r', q, hok, hq, hch, hqs⟩ := (fullstack_raise_keeps_status actRoom 1
    { chips := 190, cards := ["7h", "2c"], status := Status.inHand,
      currentBet := 10, totalContrib := 10 } 300
    (by decide) (by decide) (by decide) (by decide)).1 (by decide) (by decide)
  rw [hok]
  show some ((seatAt r'.seats 1).map (fun q => (q.chips, q.status))) = _
  rw [hq]
  show some (some (q.chips, q.status)) = some (some (0, Status.inHand))
  rw [hch, hqs]

theorem contribTotal_nil : contribTotal [] = 0 := rfl

theorem contribTotal_cons_some (p : Seat) (t : List (Option Seat)) :
    contribTotal (some p :: t) = p.totalContrib + contribTotal t := by
  unfold contribTotal
  simp [List.filterMap_cons]

theorem contribTotal_cons_none (t : List (Option Seat)) :
    contribTotal (none :: t) = contribTotal t := by
  unfold contribTotal
  simp [List.filterMap_cons]

theorem contribTotal_set (seats : List (Option Seat)) (i : Nat) (p q : Seat)
    (h : seatAt seats i = some p) :
    contribTotal (seats.set i (some q)) =
      contribTotal seats - p.totalContrib + q.totalContrib := by
  induction seats generalizing i with
  | nil => rw [seatAt_nil] at h; cases h
  | cons s t ih =>
    cases i with
    | zero =>
      rw [seatAt_cons_zero] at h
      subst h
      rw [List.set_cons_zero, contribTotal_cons_some, contribTotal_cons_some]
      ring
    | succ n =>
      rw [seatAt_cons_succ] at h
      rw [List.set_cons_succ]
      cases s with
      | none => rw [contribTotal_cons_none, contribTotal_cons_none, ih n h]
      | some x =>
        rw [contribTotal_cons_some, contribTotal_cons_some, ih n h]
        ring

/-- The per-seat reset at the top of `startHand` zeroes every total
contribution. -/
theorem contribTotal_startReset (seats : List (Option Seat)) :
    contribTotal (seats.map (fun (s : Option Seat) => s.map (fun (p : Seat) =>
      { p with
        cards := ([] : List Card)
        currentBet := 0
        totalContrib := 0
        status := if p.chips ≤ 0 then Status.out else Status.inHand }))) = 0 := by
  induction seats with
  | nil => rfl
  | cons s t ih =>
    cases s with
    | none =>
      rw [List.map_cons]
      show contribTotal (none :: _) = 0
      rw [contribTotal_cons_none, ih]
    | some p =>
      rw [List.map_cons]
      show contribTotal (some _ :: _) = 0
      rw [contribTotal_cons_some, ih]
      show (0 : Int) + 0 = 0
      ring

/-- Dealing hole cards only rewrites `cards` fields: the total
contribution is untouched. -/
theorem contribTotal_dealHoles (seats : List (Option Seat)) (deck : List Card) :
    contribTotal (dealHoles seats deck).1 = contribTotal seats := by
  induction seats generalizing deck with
  | nil => rfl
  | cons s t ih =>
    cases s with
    | none =>
      rcases hd : dealHoles t deck with ⟨t2, d2⟩
      rw [dealHoles, hd]
      dsimp only
      rw [contribTotal_cons_none, contribTotal_cons_none]
      have := ih deck
      rw [hd] at this
      exact this
    | some p =>
      by_cases hin : (p.status == Status.inHand) = true
      · rcases hp : popN 2 deck with ⟨cs, d1⟩
        rcases hd : dealHoles t d1 with ⟨t2, d2⟩
        rw [dealHoles, hp]
        rw [if_pos hin]
        dsimp only
        rw [hd]
        dsimp only
        rw [contribTotal_cons_some, contribTotal_cons_some]
        have := ih d1
        rw [hd] at this
        rw [this]
      · rcases hd : dealHoles t deck with ⟨t2, d2⟩
        rw [dealHoles, hd]
        dsimp only
        rw [if_neg hin]
        dsimp only
        rw [contribTotal_cons_some, contribTotal_cons_some]
        have := ih deck
        rw [hd] at this
        rw [this]

/-- Zeroing round bets keeps total contributions. -/
theorem contribTotal_zeroRoundBets (seats : List (Option Seat)) :
    contribTotal (seats.map (fun (s : Option Seat) =>
      s.map (fun (p : Seat) => { p with currentBet := 0 }))) = contribTotal seats := by
  induction seats with
  | nil => rfl
  | cons s t ih =>
    cases s with
    | none =>
      rw [List.map_cons]
      show contribTotal (none :: _) = _
      rw [contribTotal_cons_none, contribTotal_cons_none, ih]
    | some p =>
      rw [List.map_cons]
      show contribTotal (some _ :: _) = _
      rw [contribTotal_cons_some, contribTotal_cons_some, ih]

theorem resetBetsForRound_potInv (r : Room)
    (h : r.pot = contribTotal r.seats) :
    (resetBetsForRound r).pot = contribTotal (resetBetsForRound r).seats := by
  unfold resetBetsForRound
  dsimp only
  rw [contribTotal_zeroRoundBets]
  exact h

theorem postBlind_potInv (r : Room) (idx amt : Int)
    (h : r.pot = contribTotal r.seats) :
    (postBlind r idx amt).pot = contribTotal (postBlind r idx amt).seats := by
  unfold postBlind
  split
  · cases hs : seatAt r.seats idx.toNat with
    | none => exact h
    | some p =>
      dsimp only
      have htc : (if p.chips - min p.chips amt = 0
          then { p with
            chips := p.chips - min p.chips amt
            currentBet := p.currentBet + min p.chips amt
            totalContrib := p.totalContrib + min p.chips amt
            status := Status.allin }
          else { p with
            chips := p.chips - min p.chips amt
            currentBet := p.currentBet + min p.chips amt
            totalContrib := p.totalContrib + min p.chips amt }).totalContrib
          = p.totalContrib + min p.chips amt := by
        split <;> rfl
      rw [contribTotal_set r.seats idx.toNat p _ hs, htc, h]
      ring
  · exact h

theorem startHand_potInv (shuffled : List Card) (room r : Room)
    (h : startHand shuffled room = some r) : r.pot = contribTotal r.seats := by
  unfold startHand at h
  by_cases hg : (room.seats.filterMap id).length < 2
  · rw [if_pos hg] at h
    cases h
  · rw [if_neg hg] at h
    dsimp only at h
    have hr : r = _ := (Option.some.inj h).symm
    rw [hr]
    apply resetBetsForRound_potInv
    dsimp only
    apply postBlind_potInv
    apply postBlind_potInv
    dsimp only
    rw [contribTotal_dealHoles, contribTotal_startReset]
    split
    · rfl
    · rfl

theorem applyAction_potInv (room : Room) (i : Nat) (a : PAction) (r' : Room)
    (hinv : room.pot = contribTotal room.seats)
    (hok : applyAction room i a = ActOutcome.ok r') :
    r'.pot = contribTotal r'.seats := by
  unfold applyAction at hok
  rcases hs : seatAt room.seats i with - | p
  · rw [hs] at hok
    cases hok
  · rw [hs] at hok
    dsimp only at hok
    by_cases hg1 : (p.status == Status.folded || p.status == Status.out) = true
    · rw [if_pos hg1] at hok
      cases hok
    · rw [if_neg hg1] at hok
      by_cases hg2 : room.toActSeat ≠ some ((i : Int))
      · rw [if_pos hg2] at hok
        cases hok
      · rw [if_neg hg2] at hok
        cases a with
        | fold =>
          dsimp only at hok
          injection hok with hr'
          rw [← hr', finishAction_eq]
          dsimp only
          rw [contribTotal_set room.seats i p _ hs]
          dsimp only
          rw [hinv]
          ring
        | check =>
          dsimp only at hok
          split at hok
          · injection hok with hr'
            rw [← hr', finishAction_eq]
            exact hinv
          · cases hok
        | call =>
          dsimp only at hok
          injection hok with hr'
          rw [← hr', finishAction_eq]
          dsimp only
          rw [contribTotal_set room.seats i p _ hs]
          have htc : (if p.chips - min p.chips (room.currentBet - p.currentBet) = 0
              then { p with
                chips := p.chips - min p.chips (room.currentBet - p.currentBet)
                currentBet := p.currentBet + min p.chips (room.currentBet - p.currentBet)
                totalContrib := p.totalContrib + min p.chips (room.currentBet - p.currentBet)
                status := Status.allin }
              else { p with
                chips := p.chips - min p.chips (room.currentBet - p.currentBet)
                currentBet := p.currentBet + min p.chips (room.currentBet - p.currentBet)
                totalContrib := p.totalContrib +
                  min p.chips (room.currentBet - p.currentBet) }).totalContrib
              = p.totalContrib + min p.chips (room.currentBet - p.currentBet) := by
            split <;> rfl
          rw [htc, hinv]
          ring
        | raiseBy amount =>
          dsimp only at hok
          split at hok
          · cases hok
          · injection hok with hr'
            rw [← hr', finishAction_eq]
            dsimp only
            rw [contribTotal_set room.seats i p _ hs]
            dsimp only
            rw [hinv]
            ring
        | betBy amount =>
          dsimp only at hok
          split at hok
          · cases hok
          · injection hok with hr'
            rw [← hr', finishAction_eq]
            dsimp only
            rw [contribTotal_set room.seats i p _ hs]
            dsimp only
            rw [hinv]
            ring
        | allin =>
          dsimp only at hok
          split at hok
          · injection hok with hr'
            rw [← hr', finishAction_eq]
            dsimp only
            rw [contribTotal_set room.seats i p _ hs]
            dsimp only
            rw [hinv]
            ring
          · injection hok with hr'
            rw [← hr', finishAction_eq]
            dsimp only
            rw [contribTotal_set room.seats i p _ hs]
            dsimp only
            rw [hinv]
            ring

/-- C5.  The cached pot reconciles with the ledger throughout a hand:
`startHand` (blind posting included) establishes
`pot = Σ occupied seats' totalContrib`, and every accepted player intent
(fold, check, call, bet/raise, all-in) preserves it. -/
theorem pot_cache_invariant :
    (∀ shuffled room r, startHand shuffled room = some r →
      r.pot = contribTotal r.seats) ∧
    (∀ room i a r', room.pot = contribTotal room.seats →
      applyAction room i a = ActOutcome.ok r' → r'.pot = contribTotal r'.seats) :=
  ⟨startHand_potInv, fun room i a r' => applyAction_potInv room i a r'⟩

/-- Witness for C5: after `startHand` on the two-seat room the cached
pot and the contribution total both equal 30 (the posted blinds). -/
theorem pot_cache_invariant_witness :
    ((startHand sampleDeck twoSeatRoom).map
      (fun r => (r.pot, contribTotal r.seats))) = some (30, 30) := by
  cases hsh : startHand sampleDeck twoSeatRoom with
  | none => exact absurd hsh (by decide)
  | some r =>
    have h := pot_cache_invariant.1 sampleDeck twoSeatRoom r hsh
    show some (r.pot, contribTotal r.seats) = some (30, 30)
    have hpot : r.pot = 30 := by
      have h30 : (startHand sampleDeck twoSeatRoom).map Room.pot = some 30 := by decide
      rw [hsh] at h30
      exact Option.some.inj h30
    rw [← h, hpot]

theorem get?_of_seatAt (seats : List (Option Seat)) (i : Nat) (p : Seat)
    (h : seatAt seats i = some p) : seats.get? i = some (some p) := by
  rw [seatAt, List.getD_eq_get?] at h
  cases hg : seats.get? i with
  | none => rw [hg] at h; cases h
  | some s =>
    rw [hg] at h
    exact congrArg some h

theorem two_le_filter_of_two_found {α : Type} (pr : α → Bool) :
    ∀ (l : List α) (i j : Nat) (a b : α), i < j →
      l.get? i = some a → pr a = true → l.get? j = some b → pr b = true →
      2 ≤ (l.filter pr).length := by
  intro l
  induction l with
  | nil =>
    intro i j a b _ hi
    simp at hi
  | cons x t ih =>
    intro i j a b hij hi hpa hj hpb
    cases i with
    | zero =>
      have hax : x = a := Option.some.inj hi
      cases j with
      | zero => omega
      | succ m =>
        have hbt : b ∈ t := List.get?_mem hj
        have hbf : b ∈ t.filter pr := List.mem_filter.mpr ⟨hbt, hpb⟩
        have hxp : pr x = true := by rw [hax]; exact hpa
        rw [List.filter_cons, if_pos (by simp [hxp])]
        have hlen : 0 < (t.filter pr).length := List.length_pos_of_mem hbf
        simp only [List.length_cons]
        omega
    | succ m =>
      cases j with
      | zero => omega
      | succ n =>
        have h2 := ih m n a b (by omega) hi hpa hj hpb
        rw [List.filter_cons]
        split
        · simp only [List.length_cons]
          omega
        · exact h2

theorem filter_length_one_unique {α : Type} (pr : α → Bool) (l : List α)
    (hone : (l.filter pr).length = 1) (i j : Nat) (a b : α)
    (hi : l.get? i = some a) (hpa : pr a = true)
    (hj : l.get? j = some b) (hpb : pr b = true) : i = j := by
  rcases lt_trichotomy i j with h | h | h
  · have := two_le_filter_of_two_found pr l i j a b h hi hpa hj hpb
    omega
  · exact h
  · have := two_le_filter_of_two_found pr l j i b a h hj hpb hi hpa
    omega

theorem filter_length_le_of_imp {α : Type} (q r : α → Bool)
    (himp : ∀ x, q x = true → r x = true) (l : List α) :
    (l.filter q).length ≤ (l.filter r).length := by
  induction l with
  | nil => exact le_refl 0
  | cons x t ih =>
    rw [List.filter_cons, List.filter_cons]
    cases hq : q x with
    | true =>
      rw [if_pos (by simp [hq]), if_pos (by simp [himp x hq])]
      simpa using ih
    | false =>
      rw [if_neg (by simp [hq])]
      split
      · simp only [List.length_cons]
        exact Nat.le_succ_of_le ih
      · exact ih

theorem findIdx_eq_of_first {α : Type} (pr : α → Bool) :
    ∀ (l : List α) (i : Nat) (a : α),
      l.get? i = some a → pr a = true →
      (∀ j b, j < i → l.get? j = some b → pr b = false) →
      l.findIdx pr = i := by
  intro l
  induction l with
  | nil =>
    intro i a hi
    simp at hi
  | cons x t ih =>
    intro i a hi hpa hbefore
    cases i with
    | zero =>
      have hax : x = a := Option.some.inj hi
      rw [List.findIdx_cons, hax, hpa]
      rfl
    | succ m =>
      have hx : pr x = false := hbefore 0 x (by omega) rfl
      rw [List.findIdx_cons, hx]
      show List.findIdx pr t + 1 = m + 1
      have := ih m a hi hpa (fun j b hj hb => hbefore (j + 1) b (by omega) hb)
      omega

theorem isActiveSeat_imp_live (s : Option Seat) (h : isActiveSeat s = true) :
    isLiveSeat s = true := by
  cases s with
  | none => simp [isActiveSeat] at h
  | some p =>
    unfold isActiveSeat at h
    unfold isLiveSeat
    exact ((Bool.and_eq_true _ _).mp h).1

theorem isWinnerSeat_imp_live (s : Option Seat) (h : isWinnerSeat s = true) :
    isLiveSeat s = true := by
  cases s with
  | none => simp [isWinnerSeat] at h
  | some p =>
    unfold isWinnerSeat at h
    unfold isLiveSeat
    exact ((Bool.and_eq_true _ _).mp h).1

theorem isActiveSeat_some (p : Seat) (h1 : p.status ≠ Status.folded)
    (h2 : 0 < p.chips) : isActiveSeat (some p) = true := by
  unfold isActiveSeat
  rw [Bool.and_eq_true]
  exact ⟨by simp [h1], decide_eq_true h2⟩

theorem isWinnerSeat_some (p : Seat) (h1 : p.status ≠ Status.folded)
    (h2 : 0 ≤ p.chips) : isWinnerSeat (some p) = true := by
  unfold isWinnerSeat
  rw [Bool.and_eq_true]
  exact ⟨by simp [h1], decide_eq_true h2⟩

theorem isLiveSeat_some (p : Seat) (h1 : p.status ≠ Status.folded) :
    isLiveSeat (some p) = true := by
  unfold isLiveSeat
  simp [h1]

theorem countActive_of_unique_live (room : Room) (i : Nat) (p : Seat)
    (hseat : seatAt room.seats i = some p)
    (hlive : p.status ≠ Status.folded) (hchips : 0 < p.chips)
    (hone : (room.seats.filter isLiveSeat).length = 1) :
    countActivePlayers room = 1 := by
  have hg := get?_of_seatAt room.seats i p hseat
  have hmem : (some p) ∈ room.seats := List.get?_mem hg
  have hact : isActiveSeat (some p) = true := isActiveSeat_some p hlive hchips
  have h1 : 0 < (room.seats.filter isActiveSeat).length :=
    List.length_pos_of_mem (List.mem_filter.mpr ⟨hmem, hact⟩)
  have h2 : (room.seats.filter isActiveSeat).length ≤
      (room.seats.filter isLiveSeat).length :=
    filter_length_le_of_imp _ _ isActiveSeat_imp_live room.seats
  unfold countActivePlayers
  omega

theorem findSoleWinner_of_unique_live (room : Room) (i : Nat) (p : Seat)
    (hseat : seatAt room.seats i = some p)
    (hlive : p.status ≠ Status.folded) (hchips : 0 < p.chips)
    (hone : (room.seats.filter isLiveSeat).length = 1) :
    findSoleWinner room.seats = i := by
  have hg := get?_of_seatAt room.seats i p hseat
  apply findIdx_eq_of_first isWinnerSeat room.seats i (some p) hg
    (isWinnerSeat_some p hlive (le_of_lt hchips))
  intro j b hj hb
  cases hw : isWinnerSeat b with
  | false => rfl
  | true =>
    exfalso
    have hlb : isLiveSeat b = true := isWinnerSeat_imp_live b hw
    have hji := filter_length_one_unique isLiveSeat room.seats hone j i b (some p)
      hb hlb hg (isLiveSeat_some p hlive)
    omega

/-- A reachable mid-hand state with exactly one non-folded seat: seat 1
went all-in for its whole 100-chip stack and seat 0 then folded, leaving
seat 1 the only non-folded seat — but all-in with 0 chips. -/
def soleAllinRoom : Room :=
  { seats := [some (mkSeat 100 0 50 Status.folded), some (mkSeat 0 0 100 Status.allin),
              none, none, none, none, none, none, none]
    dealerIndex := 0
    deck := ["2s", "3s", "4s", "5s"]
    community := []
    pot := 150
    stage := Stage.preflop
    currentBet := 0
    toActSeat := none
    pendingSeats := []
    handCount := 1
    smallBlind := 10
    bigBlind := 20 }

/-- Counterexample to C2 as stated: in `soleAllinRoom` exactly one seat
is non-folded (seat 1, status all-in), yet the deferred
`advanceToNextAct` does not end the hand — `countActivePlayers` also
requires `chips > 0`, so the early-termination branch is skipped, three
community cards are dealt, the stage moves to flop (not lobby), the pot
stays 150 and seat 1 is not awarded anything. -/
theorem single_survivor_counterexample :
    ((soleAllinRoom.seats.filter isLiveSeat).length = 1) ∧
    ((seatAt soleAllinRoom.seats 1).map Seat.status = some Status.allin) ∧
    ((advanceToNextAct (fun _ => "") (fun l => l) soleAllinRoom).stage = Stage.flop) ∧
    ((advanceToNextAct (fun _ => "") (fun l => l) soleAllinRoom).stage ≠ Stage.lobby) ∧
    ((advanceToNextAct (fun _ => "") (fun l => l) soleAllinRoom).pot = 150) ∧
    ((advanceToNextAct (fun _ => "") (fun l => l) soleAllinRoom).community
      = ["5s", "4s", "3s"]) ∧
    ((seatAt (advanceToNextAct (fun _ => "") (fun l => l) soleAllinRoom).seats 1).map
      Seat.chips = some 0) := by
  decide

/-- C2 (amended).  Whenever, at a decision point, exactly one seat is
non-folded and that seat still has chips > 0, the deferred
`advanceToNextAct` ends the hand immediately: the seat collects the
entire pot, the pot is zeroed, no further community cards are dealt and
the stage returns to lobby.  (The amendment adds "and that seat has
chips > 0": the source's `countActivePlayers` requires chips, so a sole
surviving seat that is already all-in instead goes through the remaining
streets to showdown, as the counterexample shows.) -/
theorem single_survivor_award (solve : List Card → String)
    (winnersFn : List String → List String) (room : Room) (i : Nat) (p : Seat)
    (hseat : seatAt room.seats i = some p)
    (hlive : p.status ≠ Status.folded)
    (hchips : 0 < p.chips)
    (hone : (room.seats.filter isLiveSeat).length = 1) :
    (advanceToNextAct solve winnersFn room).stage = Stage.lobby ∧
    (advanceToNextAct solve winnersFn room).pot = 0 ∧
    (advanceToNextAct solve winnersFn room).community = room.community ∧
    (advanceToNextAct solve winnersFn room).deck = room.deck ∧
    seatAt (advanceToNextAct solve winnersFn room).seats i =
      some { p with chips := p.chips + room.pot } := by
  have hcnt := countActive_of_unique_live room i p hseat hlive hchips hone
  have hwin := findSoleWinner_of_unique_live room i p hseat hlive hchips hone
  have hlen := seatAt_lt_length room.seats i p hseat
  unfold advanceToNextAct
  rw [if_pos hcnt]
  dsimp only
  rw [hwin]
  unfold awardSoleWinner
  rw [hseat]
  dsimp only
  refine ⟨rfl, rfl, rfl, rfl, ?_⟩
  exact seatAt_set_self room.seats i _ hlen

/-- A mid-hand state with seat 0 folded and seat 1 the only non-folded
seat, still holding 40 chips, with 60 in the pot. -/
def soleLiveRoom : Room :=
  { seats := [some (mkSeat 100 0 30 Status.folded), some (mkSeat 40 0 30 Status.inHand),
              none, none, none, none, none, none, none]
    dealerIndex := 0
    deck := ["2s", "3s", "4s", "5s"]
    community := []
    pot := 60
    stage := Stage.preflop
    currentBet := 0
    toActSeat := none
    pendingSeats := []
    handCount := 1
    smallBlind := 10
    bigBlind := 20 }

/-- Witness for C2 (amended): in `soleLiveRoom`, seat 1 — the only
non-folded seat, with chips — is awarded the whole 60-chip pot and the
stage returns to lobby, with no community card dealt. -/
theorem single_survivor_award_witness :
    (advanceToNextAct (fun _ => "") (fun l => l) soleLiveRoom).stage = Stage.lobby ∧
    (advanceToNextAct (fun _ => "") (fun l => l) soleLiveRoom).community = [] ∧
    ((seatAt (advanceToNextAct (fun _ => "") (fun l => l) soleLiveRoom).seats 1).map
      Seat.chips = some 100) := by
  obtain ⟨hst, hpot, hcom, hdeck, hseat'⟩ := single_survivor_award
    (fun _ => "") (fun l => l) soleLiveRoom 1 (mkSeat 40 0 30 Status.inHand)
    (by decide) (by decide) (by decide) (by decide)
  refine ⟨hst, hcom, ?_⟩
  rw [hseat']
  rfl
